import Mathlib

/-!
Verification of a toolkit of hand-rolled concurrency primitives:
a reference-counted shared-ownership pointer (`Arc`/`Weak` in `arc.rs`),
a one-shot channel (`one_shot.rs`), and a spin lock (`spin_lock.rs`).

The code is embedded shallowly: every atomic read-modify-write of the
source becomes a pure step on an explicit state record, and sequences of
API calls become traces over a step function.  Machine integers (`usize`)
are modelled as `Nat` with the wrap modulus `2 ^ 64` applied exactly where
the source performs a wrapping `fetch_add`/`fetch_sub`.  Ghost fields
(`strong`, `weak`, `destroys`, `frees`, ...) record how many handles are
live and how many times a destructor or deallocation actually ran; they
are instrumentation only and never feed back into the modelled code.
-/

/-- The wrap modulus of `usize` on a 64-bit target, `2 ^ 64`. -/
def USIZE_MOD : Nat := 18446744073709551616

/-- `usize::MAX`, i.e. `2 ^ 64 - 1`.  Also used by `get_mut`/`downgrade`
as the reserved sentinel for "exclusivity check in progress". -/
def USIZE_MAX : Nat := 18446744073709551615

/-- Shared state of one `ArcData<T>` allocation (`arc.rs`), together with
ghost instrumentation.  `dataRefCount` and `allocRefCount` are the two
atomic counters; `strong`/`weak` are ghost counts of live `Arc<T>` and
`Weak<T>` handles; `destroys` counts executions of
`ManuallyDrop::drop(&mut *self.data().data.get())` and `frees` counts
executions of `drop(Box::from_raw(self.ptr.as_ptr()))`. -/
structure ArcState where
  dataRefCount : Nat
  allocRefCount : Nat
  strong : Nat
  weak : Nat
  destroys : Nat
  frees : Nat
deriving DecidableEq

/-- Result of running one `Arc`/`Weak` operation to completion in a
sequential (uncontended) execution: it returns normally with a value and
a successor state, panics (a failed `assert!`, which unwinds), aborts the
process (`std::process::abort()`), or spins forever. -/
inductive Outcome (α : Type) where
  | ok (ret : α) (s : ArcState)
  | panics
  | aborts
  | blocked
deriving DecidableEq

/-- The successor state of a normally-returning outcome. -/
def Outcome.state? {α : Type} : Outcome α → Option ArcState
  | .ok _ s => some s
  | .panics => none
  | .aborts => none
  | .blocked => none

/-- `Arc::new` (arc.rs lines 79-87): fresh allocation with
`data_ref_count = 1`, `alloc_ref_count = 1`; one strong handle exists. -/
def Arc.new : ArcState :=
  { dataRefCount := 1, allocRefCount := 1, strong := 1, weak := 0
    destroys := 0, frees := 0 }

/-- `impl Clone for Arc` (arc.rs lines 155-162):
`data_ref_count.fetch_add(1, Relaxed)`; aborts if the returned old value
exceeds `usize::MAX / 2`. -/
def Arc.clone (s : ArcState) : Outcome Unit :=
  let old := s.dataRefCount
  if old > USIZE_MAX / 2 then .aborts
  else
    .ok () { s with dataRefCount := (old + 1) % USIZE_MOD
                    strong := s.strong + 1 }

/-- `impl Clone for Weak` (arc.rs lines 51-58):
`alloc_ref_count.fetch_add(1, Relaxed)`; aborts if the returned old value
exceeds `usize::MAX / 2`. -/
def Weak.clone (s : ArcState) : Outcome Unit :=
  let old := s.allocRefCount
  if old > USIZE_MAX / 2 then .aborts
  else
    .ok () { s with allocRefCount := (old + 1) % USIZE_MOD
                    weak := s.weak + 1 }

/-- The counter part of `impl Drop for Weak` (arc.rs lines 60-69):
`alloc_ref_count.fetch_sub(1, Release)`; if the returned old value was 1,
the allocation is freed (`drop(Box::from_raw(..))`).  Shared between
`Weak::drop` itself and the implicit-weak drop at the end of
`Arc::drop`. -/
def weakDropCount (s : ArcState) : ArcState :=
  let old := s.allocRefCount
  let s1 := { s with allocRefCount := (old + (USIZE_MOD - 1)) % USIZE_MOD }
  if old = 1 then { s1 with frees := s1.frees + 1 } else s1

/-- `impl Drop for Weak` (arc.rs lines 60-69): one live `Weak` handle
goes away. -/
def Weak.drop (s : ArcState) : Outcome Unit :=
  .ok () { weakDropCount s with weak := s.weak - 1 }

/-- `impl Drop for Arc` (arc.rs lines 164-178):
`data_ref_count.fetch_sub(1, Release)`; if the returned old value was 1,
destroy the value in place (`ManuallyDrop::drop`), then drop the implicit
weak pointer that represented all `Arc`s (`drop(Weak { ptr })`). -/
def Arc.drop (s : ArcState) : Outcome Unit :=
  let old := s.dataRefCount
  let s1 := { s with dataRefCount := (old + (USIZE_MOD - 1)) % USIZE_MOD
                     strong := s.strong - 1 }
  if old = 1 then
    .ok () (weakDropCount { s1 with destroys := s1.destroys + 1 })
  else
    .ok () s1

/-- `Weak::upgrade` (arc.rs lines 28-48), sequential execution (the
`compare_exchange_weak` retry loop succeeds on its first genuine
attempt): load `data_ref_count`; return `None` if it is 0;
`assert!(n < usize::MAX)` (a panic when it fails); otherwise install
`n + 1` and return `Some(Arc { .. })`.  The returned `Bool` records
whether the result was `Some`. -/
def Weak.upgrade (s : ArcState) : Outcome Bool :=
  let n := s.dataRefCount
  if n = 0 then .ok false s
  else if n < USIZE_MAX then
    .ok true { s with dataRefCount := n + 1, strong := s.strong + 1 }
  else .panics

/-- `Arc::downgrade` (arc.rs lines 120-142), sequential execution: load
`alloc_ref_count`; if it equals the sentinel `usize::MAX` the loop
spin-waits (forever, in a run with no concurrent `get_mut` to clear it);
`assert!(n < usize::MAX - 1)` (a panic when it fails); otherwise the
compare-exchange installs `n + 1` and a new `Weak` handle is returned. -/
def Arc.downgrade (s : ArcState) : Outcome Unit :=
  let n := s.allocRefCount
  if n = USIZE_MAX then .blocked
  else if n < USIZE_MAX - 1 then
    .ok () { s with allocRefCount := n + 1, weak := s.weak + 1 }
  else .panics

/-- `Arc::get_mut` (arc.rs lines 93-118):
`alloc_ref_count.compare_exchange(1, usize::MAX, Acquire, Relaxed)`; on
failure return `None` at once.  On success read
`is_unique := data_ref_count.load(Relaxed) == 1`, store
`alloc_ref_count := 1` (the release store, on BOTH paths), and only then
return `None` when not unique, or `Some(&mut T)` when unique.  The
returned `Bool` records whether the result was `Some`. -/
def Arc.get_mut (s : ArcState) : Bool × ArcState :=
  if s.allocRefCount ≠ 1 then (false, s)
  else
    let s1 : ArcState := { s with allocRefCount := USIZE_MAX }
    let isUnique : Bool := s1.dataRefCount == 1
    let s2 : ArcState := { s1 with allocRefCount := 1 }
    (isUnique, s2)

/-- The operations a client can perform on the handles of one shared
allocation. -/
inductive ArcOp where
  | cloneArc
  | dropArc
  | downgrade
  | getMut
  | cloneWeak
  | dropWeak
  | upgrade
deriving DecidableEq

/-- One client operation as a step of the sequential trace machine.
An operation on an `Arc` (resp. `Weak`) handle requires such a handle to
be live; a panicking, aborting, or forever-spinning operation has no
successor state. -/
def stepOp (op : ArcOp) (s : ArcState) : Option ArcState :=
  match op with
  | .cloneArc => if s.strong = 0 then none else (Arc.clone s).state?
  | .dropArc => if s.strong = 0 then none else (Arc.drop s).state?
  | .downgrade => if s.strong = 0 then none else (Arc.downgrade s).state?
  | .getMut => if s.strong = 0 then none else some (Arc.get_mut s).2
  | .cloneWeak => if s.weak = 0 then none else (Weak.clone s).state?
  | .dropWeak => if s.weak = 0 then none else (Weak.drop s).state?
  | .upgrade => if s.weak = 0 then none else (Weak.upgrade s).state?

/-- Run a list of operations from a state. -/
def runFrom (s : ArcState) : List ArcOp → Option ArcState
  | [] => some s
  | op :: tr =>
    match stepOp op s with
    | some s' => runFrom s' tr
    | none => none

/-- States reachable from one initial `Arc::new` by some sequence of
handle operations. -/
def ArcReachable (s : ArcState) : Prop :=
  ∃ tr : List ArcOp, runFrom Arc.new tr = some s

/-- The inductive invariant of the two-counter design:
`data_ref_count` counts the strong handles; `alloc_ref_count` counts the
weak handles plus one implicit weak reference held by the strong handles
as a group; the value is destroyed exactly when the last strong handle
went away, and the allocation freed exactly when the last handle of
either kind went away.  The bounds keep both counters clear of the wrap
modulus and of the `usize::MAX` sentinel. -/
def ArcInv (s : ArcState) : Prop :=
  s.dataRefCount = s.strong ∧
  s.allocRefCount = s.weak + min s.strong 1 ∧
  s.destroys = 1 - min s.strong 1 ∧
  s.frees = (1 - min s.strong 1) - min s.weak 1 ∧
  s.strong ≤ USIZE_MAX ∧
  s.weak ≤ USIZE_MAX - 2

theorem arcInv_new : ArcInv Arc.new := by
  refine ⟨rfl, rfl, rfl, rfl, ?_, ?_⟩ <;> decide

theorem arcInv_step {op : ArcOp} {s s' : ArcState}
    (hInv : ArcInv s) (h : stepOp op s = some s') : ArcInv s' := by
  obtain ⟨h1, h2, h3, h4, h5, h6⟩ := hInv
  cases op <;>
    simp only [stepOp, Arc.clone, Arc.drop, Arc.downgrade, Arc.get_mut,
      Weak.clone, Weak.drop, Weak.upgrade, weakDropCount] at h <;>
    (repeat' split at h) <;>
    simp only [Outcome.state?, Option.some.injEq, reduceCtorEq] at h <;>
    (subst h
     simp only [ArcInv, USIZE_MAX, USIZE_MOD] at *
     omega)

theorem arcInv_runFrom {s s' : ArcState} {tr : List ArcOp}
    (hInv : ArcInv s) (h : runFrom s tr = some s') : ArcInv s' := by
  induction tr generalizing s with
  | nil =>
    simp only [runFrom, Option.some.injEq] at h
    exact h ▸ hInv
  | cons op tr ih =>
    simp only [runFrom] at h
    cases hstep : stepOp op s with
    | none => rw [hstep] at h; exact absurd h (by simp)
    | some s1 =>
      rw [hstep] at h
      exact ih (arcInv_step hInv hstep) h

theorem arcInv_reachable {s : ArcState} (h : ArcReachable s) : ArcInv s := by
  obtain ⟨tr, htr⟩ := h
  exact arcInv_runFrom arcInv_new htr

theorem runFrom_append (s : ArcState) (t1 t2 : List ArcOp) :
    runFrom s (t1 ++ t2) = (runFrom s t1).bind (fun s1 => runFrom s1 t2) := by
  induction t1 generalizing s with
  | nil => rfl
  | cons op tr ih =>
    simp only [List.cons_append, runFrom]
    cases stepOp op s <;> simp [ih]

/-- For every `1 ≤ k ≤ usize::MAX` the state with `k` strong handles, one
weak handle, `data_ref_count = k` and `alloc_ref_count = 2` is reachable:
downgrade once, then upgrade the weak handle `k - 1` times.  (`upgrade`
has no abort threshold, only the `assert!(n < usize::MAX)`, so the strong
count really can climb all the way to `usize::MAX`.) -/
theorem arcReachable_many_strong :
    ∀ k, 1 ≤ k → k ≤ USIZE_MAX → ArcReachable ⟨k, 2, k, 1, 0, 0⟩ := by
  intro k hk1 hk2
  induction k, hk1 using Nat.le_induction with
  | base => exact ⟨[ArcOp.downgrade], by decide⟩
  | succ k hk ih =>
    obtain ⟨tr, htr⟩ := ih (by omega)
    refine ⟨tr ++ [ArcOp.upgrade], ?_⟩
    rw [runFrom_append, htr, Option.some_bind]
    simp only [runFrom, stepOp, Weak.upgrade]
    rw [if_neg (by omega), if_neg (by omega), if_pos (by omega)]
    rfl

/-- For every `k ≤ usize::MAX - 2` the state with one strong handle and
`k` weak handles (`alloc_ref_count = k + 1`) is reachable: downgrade `k`
times. -/
theorem arcReachable_many_weak :
    ∀ k, k ≤ USIZE_MAX - 2 → ArcReachable ⟨1, k + 1, 1, k, 0, 0⟩ := by
  intro k
  induction k with
  | zero => exact fun _ => ⟨[], by decide⟩
  | succ k ih =>
    intro hk
    obtain ⟨tr, htr⟩ := ih (by omega)
    refine ⟨tr ++ [ArcOp.downgrade], ?_⟩
    rw [runFrom_append, htr, Option.some_bind]
    simp only [runFrom, stepOp, Arc.downgrade]
    rw [if_neg (by omega), if_neg (by simp only [USIZE_MAX] at hk ⊢; omega),
      if_pos (by simp only [USIZE_MAX] at hk ⊢; omega)]
    rfl

/-- C1: for every sequence of handle operations starting from one
`Arc::new`, the wrapped value's destructor runs exactly once, at the
`Arc` drop that takes `data_ref_count` from 1 to 0 (however many weak
handles remain), and the allocation is freed exactly once, at the drop
that takes `alloc_ref_count` from 1 to 0, never before the value has
been destroyed. -/
theorem arc_destroy_and_free_exactly_once (s : ArcState) (h : ArcReachable s) :
    (s.destroys = if s.strong = 0 then 1 else 0) ∧
    (s.frees = if s.strong = 0 ∧ s.weak = 0 then 1 else 0) ∧
    s.frees ≤ s.destroys ∧
    (∀ s', stepOp ArcOp.dropArc s = some s' →
      (s'.destroys = s.destroys + 1 ↔ s.dataRefCount = 1)) ∧
    (∀ op s', stepOp op s = some s' →
      (s'.frees = s.frees + 1 ↔ s.allocRefCount = 1 ∧ s'.allocRefCount = 0)) := by
  obtain ⟨h1, h2, h3, h4, h5, h6⟩ := arcInv_reachable h
  refine ⟨?_, ?_, ?_, ?_, ?_⟩
  · split <;> omega
  · split <;> omega
  · omega
  · intro s' hstep
    simp only [stepOp, Arc.drop, weakDropCount] at hstep
    (repeat' split at hstep) <;>
      simp only [Outcome.state?, Option.some.injEq, reduceCtorEq] at hstep <;>
      (subst hstep
       simp only [USIZE_MAX, USIZE_MOD, true_iff, iff_true, false_iff,
         iff_false, not_and] at *
       omega)
  · intro op s' hstep
    cases op <;>
      simp only [stepOp, Arc.clone, Arc.drop, Arc.downgrade, Arc.get_mut,
        Weak.clone, Weak.drop, Weak.upgrade, weakDropCount] at hstep <;>
      (repeat' split at hstep) <;>
      simp only [Outcome.state?, Option.some.injEq, reduceCtorEq] at hstep <;>
      (subst hstep
       simp only [USIZE_MAX, USIZE_MOD, true_iff, iff_true, false_iff,
         iff_false, not_and] at *
       omega)

theorem arc_destroy_and_free_exactly_once_witness :
    ((ArcState.mk 0 0 0 0 1 1).destroys
      = if (ArcState.mk 0 0 0 0 1 1).strong = 0 then 1 else 0) ∧
    (ArcState.mk 0 0 0 0 1 1).frees ≤ (ArcState.mk 0 0 0 0 1 1).destroys :=
  ⟨(arc_destroy_and_free_exactly_once ⟨0, 0, 0, 0, 1, 1⟩
      ⟨[ArcOp.dropArc], by decide⟩).1,
   (arc_destroy_and_free_exactly_once ⟨0, 0, 0, 0, 1, 1⟩
      ⟨[ArcOp.dropArc], by decide⟩).2.2.1⟩

/-- C2: `Arc::get_mut` returns `Some` if and only if, at the moment of
the call, exactly one strong handle and zero weak handles exist, i.e.
`alloc_ref_count = 1` and `data_ref_count = 1`; otherwise it returns
`None`.  In particular it returns `Some` right after `Arc::new`, `None`
after a `downgrade`, and `Some` again after that weak handle is
dropped. -/
theorem arc_get_mut_some_iff_unique (s : ArcState) (h : ArcReachable s) :
    ((Arc.get_mut s).1 = true ↔ s.allocRefCount = 1 ∧ s.dataRefCount = 1) ∧
    ((Arc.get_mut s).1 = true ↔ s.strong = 1 ∧ s.weak = 0) ∧
    (Arc.get_mut Arc.new).1 = true ∧
    (runFrom Arc.new [ArcOp.downgrade]).map (fun t => (Arc.get_mut t).1)
      = some false ∧
    (runFrom Arc.new [ArcOp.downgrade, ArcOp.dropWeak]).map
      (fun t => (Arc.get_mut t).1) = some true := by
  obtain ⟨h1, h2, h3, h4, h5, h6⟩ := arcInv_reachable h
  refine ⟨?_, ?_, by decide, by decide, by decide⟩ <;>
    (simp only [Arc.get_mut]
     split <;> simp_all <;> omega)

theorem arc_get_mut_some_iff_unique_witness :
    ((Arc.get_mut Arc.new).1 = true ↔ Arc.new.strong = 1 ∧ Arc.new.weak = 0) :=
  (arc_get_mut_some_iff_unique Arc.new ⟨[], rfl⟩).2.1

/-- C3: when the initial compare-exchange of `get_mut` succeeded
(`alloc_ref_count` was 1), `get_mut` restores `alloc_ref_count` from the
sentinel back to 1 before returning, on the `Some` path and on the
not-unique `None` path alike, and leaves `data_ref_count` unchanged. -/
theorem arc_get_mut_restores_alloc_ref_count (s : ArcState)
    (h : s.allocRefCount = 1) :
    (Arc.get_mut s).2.allocRefCount = 1 ∧
    (Arc.get_mut s).2.dataRefCount = s.dataRefCount ∧
    ((Arc.get_mut s).1 = false → (Arc.get_mut s).2.allocRefCount = 1) := by
  simp [Arc.get_mut, h]

theorem arc_get_mut_restores_alloc_ref_count_witness :
    (Arc.get_mut ⟨2, 1, 2, 0, 0, 0⟩).1 = false ∧
    (Arc.get_mut ⟨2, 1, 2, 0, 0, 0⟩).2.allocRefCount = 1 ∧
    (Arc.get_mut ⟨2, 1, 2, 0, 0, 0⟩).2.dataRefCount = 2 :=
  ⟨by decide,
   (arc_get_mut_restores_alloc_ref_count ⟨2, 1, 2, 0, 0, 0⟩ rfl).1,
   (arc_get_mut_restores_alloc_ref_count ⟨2, 1, 2, 0, 0, 0⟩ rfl).2.1⟩

/-- C4 counterexample: in the reachable state with
`data_ref_count = usize::MAX` (one weak handle, `usize::MAX` strong
handles), `data_ref_count` is nonzero and yet `Weak::upgrade` neither
returns `Some` nor `None`: its `assert!(n < usize::MAX)` fails, i.e. it
panics. -/
theorem arc_upgrade_claim_counterexample :
    ArcReachable ⟨USIZE_MAX, 2, USIZE_MAX, 1, 0, 0⟩ ∧
    (ArcState.mk USIZE_MAX 2 USIZE_MAX 1 0 0).dataRefCount ≠ 0 ∧
    Weak.upgrade ⟨USIZE_MAX, 2, USIZE_MAX, 1, 0, 0⟩ = Outcome.panics := by
  refine ⟨arcReachable_many_strong USIZE_MAX (by decide) le_rfl, by decide, by decide⟩

/-- C4 amended: provided the observed `data_ref_count` is below
`usize::MAX` (so the internal `assert!` passes), `Weak::upgrade` returns
`None` iff `data_ref_count` is 0; otherwise it returns `Some`, increments
`data_ref_count` by exactly one and leaves `alloc_ref_count` unchanged.
At `data_ref_count = usize::MAX` it instead panics. -/
theorem arc_upgrade_amended (s : ArcState) (h : s.dataRefCount < USIZE_MAX) :
    (s.dataRefCount = 0 → Weak.upgrade s = Outcome.ok false s) ∧
    (s.dataRefCount ≠ 0 →
      Weak.upgrade s = Outcome.ok true
        { s with dataRefCount := s.dataRefCount + 1,
                 strong := s.strong + 1 }) := by
  constructor
  · intro h0
    simp [Weak.upgrade, h0]
  · intro h0
    simp only [Weak.upgrade]
    rw [if_neg h0, if_pos h]

theorem arc_upgrade_amended_witness :
    Weak.upgrade Arc.new
      = Outcome.ok true ⟨2, 1, 2, 0, 0, 0⟩ :=
  (arc_upgrade_amended Arc.new (by decide)).2 (by decide)

/-- C5 counterexample: in the reachable state with
`alloc_ref_count = usize::MAX - 1` (one strong handle and
`usize::MAX - 2` weak handles), `Arc::downgrade` does NOT abort the
process: its `assert!(n < usize::MAX - 1)` fails, which is a panic — an
unwinding, catchable error, not `std::process::abort()`. -/
theorem arc_downgrade_claim_counterexample :
    ArcReachable ⟨1, USIZE_MAX - 1, 1, USIZE_MAX - 2, 0, 0⟩ ∧
    Arc.downgrade ⟨1, USIZE_MAX - 1, 1, USIZE_MAX - 2, 0, 0⟩
      = Outcome.panics ∧
    Arc.downgrade ⟨1, USIZE_MAX - 1, 1, USIZE_MAX - 2, 0, 0⟩
      ≠ Outcome.aborts := by
  refine ⟨?_, by decide, by decide⟩
  have h := arcReachable_many_weak (USIZE_MAX - 2) le_rfl
  have he : USIZE_MAX - 2 + 1 = USIZE_MAX - 1 := by decide
  rw [he] at h
  exact h

/-- C5 amended: `Arc::downgrade` panics (an assertion failure that
unwinds, not a process abort) when the observed `alloc_ref_count` equals
`usize::MAX - 1`; it spins while the observed value is the sentinel
`usize::MAX`; otherwise it increments `alloc_ref_count` by exactly one
and returns a new weak handle. -/
theorem arc_downgrade_amended (s : ArcState) :
    (s.allocRefCount = USIZE_MAX → Arc.downgrade s = Outcome.blocked) ∧
    (s.allocRefCount = USIZE_MAX - 1 → Arc.downgrade s = Outcome.panics) ∧
    (s.allocRefCount < USIZE_MAX - 1 →
      Arc.downgrade s = Outcome.ok ()
        { s with allocRefCount := s.allocRefCount + 1,
                 weak := s.weak + 1 }) := by
  refine ⟨?_, ?_, ?_⟩
  · intro h0
    simp [Arc.downgrade, h0]
  · intro h0
    simp only [Arc.downgrade]
    rw [if_neg (by simp only [USIZE_MAX] at h0 ⊢; omega),
      if_neg (by simp only [USIZE_MAX] at h0 ⊢; omega)]
  · intro h0
    simp only [Arc.downgrade]
    rw [if_neg (by simp only [USIZE_MAX] at h0 ⊢; omega), if_pos h0]

theorem arc_downgrade_amended_witness :
    Arc.downgrade Arc.new = Outcome.ok () ⟨1, 2, 1, 1, 0, 0⟩ :=
  (arc_downgrade_amended Arc.new).2.2 (by decide)

/-- C6 counterexample: the claimed invariant
`alloc_ref_count >= data_ref_count` fails in the state reached from
`Arc::new` by a single `Arc::clone`: there `data_ref_count = 2` but
`alloc_ref_count = 1`, because cloning a strong handle does not touch
`alloc_ref_count` (the strong handles are accounted there only as one
implicit weak reference for the whole group). -/
theorem arc_alloc_ge_data_counterexample :
    runFrom Arc.new [ArcOp.cloneArc] = some ⟨2, 1, 2, 0, 0, 0⟩ ∧
    (ArcState.mk 2 1 2 0 0 0).dataRefCount
      > (ArcState.mk 2 1 2 0 0 0).allocRefCount ∧
    ¬ (∀ s : ArcState, ArcReachable s →
        s.dataRefCount ≤ s.allocRefCount) := by
  refine ⟨by decide, by decide, fun hall => ?_⟩
  have := hall ⟨2, 1, 2, 0, 0, 0⟩ ⟨[ArcOp.cloneArc], by decide⟩
  simp at this

/-- C6 amended: in every reachable state the combined count satisfies
`alloc_ref_count >= min(data_ref_count, 1)` — the strong handles are
accounted in `alloc_ref_count` as a single unit (one implicit weak
reference held by the whole group), not one per handle: precisely,
`alloc_ref_count` equals the number of live weak handles plus one as
long as any strong handle is live. -/
theorem arc_alloc_count_amended (s : ArcState) (h : ArcReachable s) :
    min s.dataRefCount 1 ≤ s.allocRefCount ∧
    s.allocRefCount = s.weak + min s.strong 1 := by
  obtain ⟨h1, h2, h3, h4, h5, h6⟩ := arcInv_reachable h
  omega

theorem arc_alloc_count_amended_witness :
    min (ArcState.mk 2 1 2 0 0 0).dataRefCount 1
      ≤ (ArcState.mk 2 1 2 0 0 0).allocRefCount :=
  (arc_alloc_count_amended ⟨2, 1, 2, 0, 0, 0⟩
    ⟨[ArcOp.cloneArc], by decide⟩).1

/-- State of one `Channel<T>` (`one_shot.rs`) together with the ghost
liveness of the two endpoints derived from it by `split` and ghost event
counters.  `message` models the `MaybeUninit<T>` slot (`none` =
uninitialized), `ready` the atomic flag.  `senderLive`/`receiverLive`
record whether the single-use `Sender`/`Receiver` of the current split
still exist, `dead` that the channel object itself was dropped.  `sends`
counts executions of `Sender::send`, `delivered` counts messages read
out of the slot and returned by `Receiver::receive`, `droppedInDtor`
counts messages destroyed by `Channel`'s `Drop` impl
(`assume_init_drop`). -/
structure Channel (α : Type) where
  message : Option α
  ready : Bool
  senderLive : Bool
  receiverLive : Bool
  dead : Bool
  sends : Nat
  delivered : Nat
  droppedInDtor : Nat
deriving DecidableEq

/-- `Channel::new` (one_shot.rs lines 50-56): uninitialized slot, ready
flag false.  No endpoints exist yet. -/
def Channel.new {α : Type} : Channel α :=
  { message := none, ready := false, senderLive := false
    receiverLive := false, dead := false
    sends := 0, delivered := 0, droppedInDtor := 0 }

/-- `Channel::split` (one_shot.rs lines 58-70): `*self = Self::new()`
first drops the old channel value (running `Channel`'s `Drop` impl,
which destroys a still-`Ready` message), then hands out one `Sender` and
one `Receiver` over the freshly reset state. -/
def Channel.split {α : Type} (c : Channel α) : Channel α :=
  { c with message := none, ready := false
           senderLive := true, receiverLive := true
           droppedInDtor :=
             if c.ready then c.droppedInDtor + 1 else c.droppedInDtor }

/-- `Sender::send` (one_shot.rs lines 25-29): write the message into the
slot, store `ready = true` (release), unpark the receiving thread (no
state effect here).  Consumes the sender. -/
def Sender.send {α : Type} (c : Channel α) (v : α) : Channel α :=
  { c with message := some v, ready := true, senderLive := false
           sends := c.sends + 1 }

/-- `Receiver::is_ready` (one_shot.rs lines 33-35): a relaxed load of
the ready flag. -/
def Receiver.is_ready {α : Type} (c : Channel α) : Bool :=
  c.ready

/-- `Receiver::receive` (one_shot.rs lines 37-47): swap the ready flag
to false; while the previous value was false, park (in a sequential run
with nobody left to send, that blocks forever, modelled as `none`).
Once the swap returned true, read the message out of the slot
(`assume_init_read`).  Consumes the receiver. -/
def Receiver.receive {α : Type} (c : Channel α) : Option (Option α × Channel α) :=
  if c.ready = false then none
  else
    some (c.message,
      { c with ready := false, receiverLive := false
               delivered := c.delivered + 1 })

/-- `impl Drop for Channel` (one_shot.rs lines 73-83): if the ready flag
is still set, run the message's destructor (`assume_init_drop`).  The
resets of `message`/`ready` model that the channel object itself is gone
afterwards. -/
def Channel.drop {α : Type} (c : Channel α) : Channel α :=
  { c with dead := true, message := none, ready := false
           droppedInDtor :=
             if c.ready then c.droppedInDtor + 1 else c.droppedInDtor }

/-- Client operations on one channel and its endpoints. -/
inductive ChanOp (α : Type) where
  | split
  | send (v : α)
  | receive
  | dropSender
  | dropReceiver
  | dropChannel
deriving DecidableEq

/-- One client operation as a sequential step.  `split` needs exclusive
access to the channel (no live endpoints), `send`/`receive` consume
their endpoint, dropping the channel requires that both endpoints are
gone (they borrow it).  `Sender` and `Receiver` have no `Drop` impl of
their own, so dropping them only forgets the endpoint.  A receive that
would park forever has no successor state. -/
def chanStep {α : Type} (op : ChanOp α) (c : Channel α) : Option (Channel α) :=
  if c.dead then none else
  match op with
  | .split =>
    if c.senderLive || c.receiverLive then none else some c.split
  | .send v => if c.senderLive then some (Sender.send c v) else none
  | .receive =>
    if c.receiverLive then (Receiver.receive c).map (fun p => p.2) else none
  | .dropSender =>
    if c.senderLive then some { c with senderLive := false } else none
  | .dropReceiver =>
    if c.receiverLive then some { c with receiverLive := false } else none
  | .dropChannel =>
    if c.senderLive || c.receiverLive then none else some c.drop

/-- Run a list of channel operations from a state. -/
def chanRun {α : Type} (c : Channel α) : List (ChanOp α) → Option (Channel α)
  | [] => some c
  | op :: tr =>
    match chanStep op c with
    | some c' => chanRun c' tr
    | none => none

/-- Channel states reachable from a fresh `Channel::new`. -/
def ChanReachable {α : Type} (c : Channel α) : Prop :=
  ∃ tr : List (ChanOp α), chanRun Channel.new tr = some c

/-- Channel invariant: the ready flag is set exactly when one sent
message is still in the slot awaiting its receiver (so every sent
message is finalized at most once, by `receive` or by the destructor,
never both); a set flag implies the slot is initialized; and while the
sender is still unused the flag is clear. -/
def ChanInv {α : Type} (c : Channel α) : Prop :=
  c.sends = c.delivered + c.droppedInDtor + (if c.ready then 1 else 0) ∧
  (c.ready = true → c.message.isSome = true) ∧
  (c.senderLive = true → c.ready = false)

theorem chanInv_new {α : Type} : ChanInv (Channel.new (α := α)) := by
  refine ⟨rfl, by simp [Channel.new], by simp [Channel.new]⟩

theorem chanInv_step {α : Type} {op : ChanOp α} {c c' : Channel α}
    (hInv : ChanInv c) (h : chanStep op c = some c') : ChanInv c' := by
  obtain ⟨h1, h2, h3⟩ := hInv
  cases op <;>
    simp only [chanStep, Channel.split, Sender.send, Receiver.receive,
      Channel.drop] at h <;>
    (repeat' split at h) <;>
    simp only [Option.map, Option.some.injEq, reduceCtorEq] at h <;>
    (subst h
     refine ⟨?_, ?_, ?_⟩ <;> simp_all [ChanInv] <;> omega)

theorem chanInv_run {α : Type} {c c' : Channel α} {tr : List (ChanOp α)}
    (hInv : ChanInv c) (h : chanRun c tr = some c') : ChanInv c' := by
  induction tr generalizing c with
  | nil =>
    simp only [chanRun, Option.some.injEq] at h
    exact h ▸ hInv
  | cons op tr ih =>
    simp only [chanRun] at h
    cases hstep : chanStep op c with
    | none => rw [hstep] at h; exact absurd h (by simp)
    | some c1 =>
      rw [hstep] at h
      exact ih (chanInv_step hInv hstep) h

theorem chanInv_reachable {α : Type} {c : Channel α} (h : ChanReachable c) :
    ChanInv c := by
  obtain ⟨tr, htr⟩ := h
  exact chanInv_run chanInv_new htr

theorem chanStep_ready_of_no_send {α : Type} {op : ChanOp α}
    {c c' : Channel α} (h : chanStep op c = some c')
    (hns : ∀ v : α, op ≠ ChanOp.send v) (hr : c.ready = false) :
    c'.ready = false := by
  cases op with
  | send v => exact absurd rfl (hns v)
  | _ =>
    simp only [chanStep, Channel.split, Receiver.receive, Channel.drop] at h
    (repeat' split at h) <;>
      simp only [Option.map, Option.some.injEq, reduceCtorEq] at h <;>
      (subst h; simp_all)

theorem chanRun_ready_of_no_send {α : Type} {tr : List (ChanOp α)} :
    ∀ {c c' : Channel α}, chanRun c tr = some c' →
      (∀ v : α, ChanOp.send v ∉ tr) → c.ready = false → c'.ready = false := by
  induction tr with
  | nil =>
    intro c c' h _ hr
    simp only [chanRun, Option.some.injEq] at h
    exact h ▸ hr
  | cons op tr ih =>
    intro c c' h hns hr
    simp only [chanRun] at h
    cases hstep : chanStep op c with
    | none => rw [hstep] at h; exact absurd h (by simp)
    | some c1 =>
      rw [hstep] at h
      have hop : ∀ v : α, op ≠ ChanOp.send v := by
        intro v hv
        exact hns v (by simp [hv])
      have hmem : ∀ v : α, ChanOp.send v ∉ tr := by
        intro v hv
        exact hns v (by simp [hv])
      exact ih h hmem (chanStep_ready_of_no_send hstep hop hr)

/-- C7: after `split`, `is_ready` on the receiver returns `false` as
long as no `send` has occurred (over any trace of non-send operations
from the fresh channel); and `send(v)` followed by `receive()` on the
paired endpoints delivers exactly `v`, exactly once (`sends = delivered
= 1`, nothing left for the destructor to destroy). -/
theorem channel_send_then_receive_delivers (α : Type) (v : α)
    (tr : List (ChanOp α)) (c : Channel α)
    (h1 : chanRun Channel.new tr = some c)
    (h2 : ∀ w : α, ChanOp.send w ∉ tr) :
    Receiver.is_ready c = false ∧
    Receiver.is_ready ((Channel.new : Channel α).split) = false ∧
    Receiver.receive (Sender.send ((Channel.new : Channel α).split) v)
      = some (some v,
        { message := some v, ready := false, senderLive := false
          receiverLive := false, dead := false
          sends := 1, delivered := 1, droppedInDtor := 0 }) ∧
    (∀ p : Option α × Channel α,
      Receiver.receive (Sender.send ((Channel.new : Channel α).split) v)
          = some p →
        (Channel.drop p.2).droppedInDtor = 0) := by
  refine ⟨chanRun_ready_of_no_send h1 h2 rfl, rfl, rfl, ?_⟩
  intro p hp
  simp only [Receiver.receive, Sender.send, Channel.split, Channel.new,
    Option.some.injEq] at hp
  rw [if_neg (by simp)] at hp
  simp only [Option.some.injEq] at hp
  subst hp
  rfl

theorem channel_send_then_receive_delivers_witness :
    Receiver.is_ready
        ({ message := none, ready := false, senderLive := true
           receiverLive := true, dead := false
           sends := 0, delivered := 0, droppedInDtor := 0 } : Channel Nat)
      = false ∧
    Receiver.receive
        (Sender.send ((Channel.new : Channel Nat).split) 7)
      = some (some 7,
        { message := some 7, ready := false, senderLive := false
          receiverLive := false, dead := false
          sends := 1, delivered := 1, droppedInDtor := 0 }) :=
  ⟨(channel_send_then_receive_delivers Nat 7 [ChanOp.split]
      ⟨none, false, true, true, false, 0, 0, 0⟩
      (by decide) (by intro w; simp)).1,
   (channel_send_then_receive_delivers Nat 7 [ChanOp.split]
      ⟨none, false, true, true, false, 0, 0, 0⟩
      (by decide) (by intro w; simp)).2.2.1⟩

/-- C8: in every reachable channel state the ready flag is set exactly
when one sent message sits unconsumed in the slot (counter identity), so
each sent message is finalized at most once — by `receive`'s caller or
by the destructor, never both; a set flag implies the slot is
initialized (so the destructor never reads an uninitialized slot); and
`receive` clears the flag before reading the slot, returning a present
value. -/
theorem channel_ready_flag_invariant (α : Type) (c : Channel α)
    (h : ChanReachable c) :
    (c.sends = c.delivered + c.droppedInDtor + (if c.ready then 1 else 0)) ∧
    c.delivered + c.droppedInDtor ≤ c.sends ∧
    (c.ready = true → c.message.isSome = true) ∧
    (∀ p : Option α × Channel α, Receiver.receive c = some p →
      p.2.ready = false ∧ p.1.isSome = true) := by
  obtain ⟨h1, h2, h3⟩ := chanInv_reachable h
  refine ⟨h1, by split at h1 <;> omega, h2, ?_⟩
  intro p hp
  simp only [Receiver.receive] at hp
  split at hp
  · exact absurd hp (by simp)
  · rename_i hready
    simp only [Option.some.injEq] at hp
    subst hp
    exact ⟨rfl, h2 (by revert hready; cases c.ready <;> simp)⟩

theorem channel_ready_flag_invariant_witness :
    ((Channel.mk (some 5) true false true false 1 0 0 : Channel Nat).sends
      = (Channel.mk (some 5) true false true false 1 0 0 : Channel Nat).delivered
        + (Channel.mk (some 5) true false true false 1 0 0 : Channel Nat).droppedInDtor
        + (if (Channel.mk (some 5) true false true false 1 0 0 : Channel Nat).ready
            then 1 else 0)) :=
  (channel_ready_flag_invariant Nat
    ⟨some 5, true, false, true, false, 1, 0, 0⟩
    ⟨[ChanOp.split, ChanOp.send 5], by decide⟩).1

/-- State of one `SpinLock<T>` (`spin_lock.rs`): the atomic `locked`
flag and the protected value behind the `UnsafeCell`. -/
structure SpinLock (α : Type) where
  locked : Bool
  value : α
deriving DecidableEq

/-- `SpinLock::new` (spin_lock.rs lines 17-22). -/
def SpinLock.new {α : Type} (v : α) : SpinLock α :=
  { locked := false, value := v }

/-- `SpinLock::lock` (spin_lock.rs lines 24-32): swap the flag to true;
a prior value of true means spinning (in a sequential run, forever,
since no one will release: `none`); a prior value of false means the
lock is taken and a `Guard` is returned. -/
def SpinLock.lock {α : Type} (s : SpinLock α) : Option (SpinLock α) :=
  if s.locked then none else some { s with locked := true }

/-- `DerefMut for Guard` (spin_lock.rs lines 50-55): writing the
protected value through the guard. -/
def Guard.set {α : Type} (s : SpinLock α) (v : α) : SpinLock α :=
  { s with value := v }

/-- `Deref for Guard` (spin_lock.rs lines 41-47): reading the protected
value through the guard. -/
def Guard.get {α : Type} (s : SpinLock α) : α :=
  s.value

/-- `impl Drop for Guard` (spin_lock.rs lines 57-61): store
`locked = false` (release ordering). -/
def Guard.drop {α : Type} (s : SpinLock α) : SpinLock α :=
  { s with locked := false }

/-- C9: `lock` never fails or returns an error value — on a lock whose
flag is clear it always succeeds, setting the flag; dropping the guard
(the only release path, run on every exit) clears the flag again, after
which a further `lock` call succeeds and observes every mutation made
through the previous guard. -/
theorem spinlock_lock_release_relock (α : Type) (s : SpinLock α) (v : α)
    (h : s.locked = false) :
    SpinLock.lock s = some { s with locked := true } ∧
    (∀ g : SpinLock α, (Guard.drop g).locked = false) ∧
    (Guard.drop (Guard.set { s with locked := true } v)).locked = false ∧
    SpinLock.lock (Guard.drop (Guard.set { s with locked := true } v))
      = some { locked := true, value := v } ∧
    Guard.get { locked := true, value := v } = v := by
  refine ⟨?_, fun g => rfl, rfl, rfl, rfl⟩
  rw [SpinLock.lock, if_neg (by simp [h])]

theorem spinlock_lock_release_relock_witness :
    SpinLock.lock (SpinLock.new (0 : Nat))
      = some { locked := true, value := 0 } ∧
    SpinLock.lock (Guard.drop (Guard.set { locked := true, value := 0 } 42))
      = some { locked := true, value := (42 : Nat) } :=
  ⟨(spinlock_lock_release_relock Nat (SpinLock.new 0) 42 rfl).1,
   (spinlock_lock_release_relock Nat (SpinLock.new 0) 42 rfl).2.2.2.1⟩

/-- Position of one thread inside its `for _ in 0..m { *x.lock() += 1 }`
loop, at the granularity of the shared-memory accesses of
`spin_lock.rs`: `idle` (outside the critical section, spinning or about
to call `lock`), `cs` (the swap returned false: lock acquired, counter
not yet read through the guard), `wr v` (counter read as `v`, about to
write `v + 1`), `rel` (written back, about to drop the guard, which
stores `locked = false`). -/
inductive Phase where
  | idle
  | cs
  | wr (v : Nat)
  | rel
deriving DecidableEq

/-- One thread: its phase and how many increments it still has to
finish (counting the one in progress). -/
structure Thr where
  phase : Phase
  rem : Nat
deriving DecidableEq

/-- The whole system: the spin lock's flag, the protected counter, and
the threads. -/
structure LockSys where
  locked : Bool
  counter : Nat
  thrs : List Thr
deriving DecidableEq

/-- `n` threads, each with `m` increments to perform, lock free,
counter 0. -/
def initSys (n m : Nat) : LockSys :=
  { locked := false, counter := 0, thrs := List.replicate n ⟨Phase.idle, m⟩ }

/-- Interleaved small-step semantics.  Each constructor is one atomic
access of one thread (chosen by the list split `l1 ++ _ :: l2`):
`acquire` is `locked.swap(true, Acquire)` returning false (a swap
returning true leaves the state unchanged — spinning — and is omitted),
`read`/`write` are the two halves of `*guard += 1` through the guard,
and `release` is `Guard::drop`'s `locked.store(false, Release)`,
finishing one loop iteration. -/
inductive SysStep : LockSys → LockSys → Prop where
  | acquire (l1 l2 : List Thr) (r cnt : Nat) (hr : 0 < r) :
      SysStep ⟨false, cnt, l1 ++ ⟨Phase.idle, r⟩ :: l2⟩
              ⟨true, cnt, l1 ++ ⟨Phase.cs, r⟩ :: l2⟩
  | read (l1 l2 : List Thr) (b : Bool) (r cnt : Nat) :
      SysStep ⟨b, cnt, l1 ++ ⟨Phase.cs, r⟩ :: l2⟩
              ⟨b, cnt, l1 ++ ⟨Phase.wr cnt, r⟩ :: l2⟩
  | write (l1 l2 : List Thr) (b : Bool) (r v cnt : Nat) :
      SysStep ⟨b, cnt, l1 ++ ⟨Phase.wr v, r⟩ :: l2⟩
              ⟨b, v + 1, l1 ++ ⟨Phase.rel, r⟩ :: l2⟩
  | release (l1 l2 : List Thr) (b : Bool) (r cnt : Nat) :
      SysStep ⟨b, cnt, l1 ++ ⟨Phase.rel, r⟩ :: l2⟩
              ⟨false, cnt, l1 ++ ⟨Phase.idle, r - 1⟩ :: l2⟩

/-- A thread holds the lock (a `Guard` is live) iff it is not idle. -/
def busy (t : Thr) : Bool :=
  match t.phase with
  | Phase.idle => false
  | _ => true

/-- Number of live `Guard`s: the threads that are between their
successful `swap` and the `Guard::drop` store. -/
def busyCount : List Thr → Nat
  | [] => 0
  | t :: l =>
    (match t.phase with
     | Phase.idle => 0
     | _ => 1) + busyCount l

/-- Increments a thread has yet to make visible in the counter. -/
def contrib (t : Thr) : Nat :=
  match t.phase with
  | Phase.rel => t.rem - 1
  | _ => t.rem

/-- Total number of increments not yet visible in the counter. -/
def contribSum : List Thr → Nat
  | [] => 0
  | t :: l => contrib t + contribSum l

theorem busyCount_append (l1 l2 : List Thr) :
    busyCount (l1 ++ l2) = busyCount l1 + busyCount l2 := by
  induction l1 with
  | nil => simp [busyCount]
  | cons t l ih => simp [busyCount, ih]; omega

theorem contribSum_append (l1 l2 : List Thr) :
    contribSum (l1 ++ l2) = contribSum l1 + contribSum l2 := by
  induction l1 with
  | nil => simp [contribSum]
  | cons t l ih => simp [contribSum, ih]; omega

theorem phase_idle_of_busyCount_zero {l : List Thr} (h : busyCount l = 0) :
    ∀ t ∈ l, t.phase = Phase.idle := by
  induction l with
  | nil => intro t ht; exact absurd ht (by simp)
  | cons t0 l ih =>
    intro t ht
    obtain ⟨p, r⟩ := t0
    cases p <;> simp only [busyCount] at h
    case idle =>
      rcases List.mem_cons.1 ht with rfl | h3
      · rfl
      · exact ih (by omega) t h3
    all_goals omega

theorem busyCount_replicate_idle (n m : Nat) :
    busyCount (List.replicate n ⟨Phase.idle, m⟩) = 0 := by
  induction n with
  | zero => rfl
  | succ n ih => simp [List.replicate, busyCount, ih]

theorem contribSum_replicate_idle (n m : Nat) :
    contribSum (List.replicate n ⟨Phase.idle, m⟩) = n * m := by
  induction n with
  | zero => simp [contribSum]
  | succ n ih =>
    simp [List.replicate, contribSum, contrib, ih]
    ring

theorem contribSum_eq_zero {l : List Thr}
    (h : ∀ t ∈ l, t.phase = Phase.idle ∧ t.rem = 0) : contribSum l = 0 := by
  induction l with
  | nil => rfl
  | cons t0 l ih =>
    obtain ⟨hp, hr⟩ := h t0 (List.mem_cons_self _ _)
    simp only [contribSum, contrib, hp, hr]
    rw [ih (fun t ht => h t (List.mem_cons_of_mem _ ht))]

/-- Mutual-exclusion invariant: the counter plus all outstanding
increments is the grand total; the lock flag is set iff exactly one
thread is between its successful swap and its release; a thread that
has read `v` through its guard still sees `v` as the counter; and every
non-idle thread is mid-iteration. -/
def SysInv (total : Nat) (s : LockSys) : Prop :=
  s.counter + contribSum s.thrs = total ∧
  busyCount s.thrs = cond s.locked 1 0 ∧
  (∀ t ∈ s.thrs, ∀ v, t.phase = Phase.wr v → v = s.counter) ∧
  (∀ t ∈ s.thrs, busy t = true → 1 ≤ t.rem)

theorem sysInv_init (n m : Nat) : SysInv (n * m) (initSys n m) := by
  refine ⟨?_, ?_, ?_, ?_⟩
  · simp [initSys, contribSum_replicate_idle]
  · simp [initSys, busyCount_replicate_idle]
  · intro t ht v hv
    simp only [initSys] at ht
    rw [List.eq_of_mem_replicate ht] at hv
    exact absurd hv (by simp)
  · intro t ht hb
    simp only [initSys] at ht
    rw [List.eq_of_mem_replicate ht] at hb
    simp [busy] at hb

theorem sysInv_step {T : Nat} {s s' : LockSys}
    (hInv : SysInv T s) (h : SysStep s s') : SysInv T s' := by
  obtain ⟨hA, hB, hC, hD⟩ := hInv
  cases h with
  | acquire l1 l2 r cnt hr =>
    dsimp only at hA hB hC hD
    rw [contribSum_append] at hA
    rw [busyCount_append] at hB
    simp only [contribSum, contrib, busyCount, cond] at hA hB
    refine ⟨?_, ?_, ?_, ?_⟩
    · rw [contribSum_append]
      simp only [contribSum, contrib]
      omega
    · rw [busyCount_append]
      simp only [busyCount, cond]
      omega
    · intro t ht v hv
      rcases List.mem_append.1 ht with h1 | h2
      · exact hC t (List.mem_append_left _ h1) v hv
      · rcases List.mem_cons.1 h2 with rfl | h3
        · exact absurd hv (by simp)
        · exact hC t (List.mem_append_right _ (List.mem_cons_of_mem _ h3)) v hv
    · intro t ht hb
      rcases List.mem_append.1 ht with h1 | h2
      · exact hD t (List.mem_append_left _ h1) hb
      · rcases List.mem_cons.1 h2 with rfl | h3
        · exact hr
        · exact hD t (List.mem_append_right _ (List.mem_cons_of_mem _ h3)) hb
  | read l1 l2 b r cnt =>
    dsimp only at hA hB hC hD
    rw [contribSum_append] at hA
    rw [busyCount_append] at hB
    simp only [contribSum, contrib, busyCount] at hA hB
    refine ⟨?_, ?_, ?_, ?_⟩
    · rw [contribSum_append]
      simp only [contribSum, contrib]
      omega
    · rw [busyCount_append]
      simp only [busyCount]
      cases b <;> simp only [cond] at hB ⊢ <;> omega
    · intro t ht v hv
      rcases List.mem_append.1 ht with h1 | h2
      · exact hC t (List.mem_append_left _ h1) v hv
      · rcases List.mem_cons.1 h2 with rfl | h3
        · simpa using hv.symm
        · exact hC t (List.mem_append_right _ (List.mem_cons_of_mem _ h3)) v hv
    · intro t ht hb
      rcases List.mem_append.1 ht with h1 | h2
      · exact hD t (List.mem_append_left _ h1) hb
      · rcases List.mem_cons.1 h2 with rfl | h3
        · exact hD ⟨Phase.cs, r⟩
            (List.mem_append_right _ (List.mem_cons_self _ _)) (by simp [busy])
        · exact hD t (List.mem_append_right _ (List.mem_cons_of_mem _ h3)) hb
  | write l1 l2 b r v cnt =>
    dsimp only at hA hB hC hD
    have hv : v = cnt := hC ⟨Phase.wr v, r⟩
      (List.mem_append_right _ (List.mem_cons_self _ _)) v rfl
    have hrem : 1 ≤ r := hD ⟨Phase.wr v, r⟩
      (List.mem_append_right _ (List.mem_cons_self _ _)) (by simp [busy])
    rw [contribSum_append] at hA
    rw [busyCount_append] at hB
    simp only [contribSum, contrib, busyCount] at hA hB
    cases b with
    | false => simp only [cond] at hB; omega
    | true =>
      simp only [cond] at hB
      have hl1 : busyCount l1 = 0 := by omega
      have hl2 : busyCount l2 = 0 := by omega
      refine ⟨?_, ?_, ?_, ?_⟩
      · rw [contribSum_append]
        simp only [contribSum, contrib]
        omega
      · rw [busyCount_append]
        simp only [busyCount, cond]
        omega
      · intro t ht w hw
        rcases List.mem_append.1 ht with h1 | h2
        · rw [phase_idle_of_busyCount_zero hl1 t h1] at hw
          exact absurd hw (by simp)
        · rcases List.mem_cons.1 h2 with rfl | h3
          · exact absurd hw (by simp)
          · rw [phase_idle_of_busyCount_zero hl2 t h3] at hw
            exact absurd hw (by simp)
      · intro t ht hb
        rcases List.mem_append.1 ht with h1 | h2
        · exact hD t (List.mem_append_left _ h1) hb
        · rcases List.mem_cons.1 h2 with rfl | h3
          · exact hrem
          · exact hD t (List.mem_append_right _ (List.mem_cons_of_mem _ h3)) hb
  | release l1 l2 b r cnt =>
    dsimp only at hA hB hC hD
    have hrem : 1 ≤ r := hD ⟨Phase.rel, r⟩
      (List.mem_append_right _ (List.mem_cons_self _ _)) (by simp [busy])
    rw [contribSum_append] at hA
    rw [busyCount_append] at hB
    simp only [contribSum, contrib, busyCount] at hA hB
    cases b with
    | false => simp only [cond] at hB; omega
    | true =>
      simp only [cond] at hB
      refine ⟨?_, ?_, ?_, ?_⟩
      · rw [contribSum_append]
        simp only [contribSum, contrib]
        omega
      · rw [busyCount_append]
        simp only [busyCount, cond]
        omega
      · intro t ht w hw
        rcases List.mem_append.1 ht with h1 | h2
        · exact hC t (List.mem_append_left _ h1) w hw
        · rcases List.mem_cons.1 h2 with rfl | h3
          · exact absurd hw (by simp)
          · exact hC t (List.mem_append_right _ (List.mem_cons_of_mem _ h3)) w hw
      · intro t ht hb
        rcases List.mem_append.1 ht with h1 | h2
        · exact hD t (List.mem_append_left _ h1) hb
        · rcases List.mem_cons.1 h2 with rfl | h3
          · simp [busy] at hb
          · exact hD t (List.mem_append_right _ (List.mem_cons_of_mem _ h3)) hb

theorem sysInv_reach {n m : Nat} {s : LockSys}
    (h : Relation.ReflTransGen SysStep (initSys n m) s) :
    SysInv (n * m) s := by
  induction h with
  | refl => exact sysInv_init n m
  | tail hsteps hstep ih => exact sysInv_step ih hstep

/-- C10: for all `n, m ≥ 1`, in any interleaved execution of `n`
threads each performing `m` increments of the shared counter under the
spin lock, at most one guard is live at any reachable state, and when
every thread has finished (all idle with no remaining increments) the
counter is exactly `n * m` — no update is lost. -/
theorem spinlock_n_threads_m_increments (n m : Nat) (_hn : 1 ≤ n)
    (_hm : 1 ≤ m) (s : LockSys)
    (h : Relation.ReflTransGen SysStep (initSys n m) s) :
    busyCount s.thrs ≤ 1 ∧
    ((∀ t ∈ s.thrs, t.phase = Phase.idle ∧ t.rem = 0) →
      s.counter = n * m) := by
  obtain ⟨hA, hB, hC, hD⟩ := sysInv_reach h
  constructor
  · rw [hB]
    cases s.locked <;> simp [cond]
  · intro hdone
    rw [contribSum_eq_zero hdone] at hA
    omega

theorem spinlock_n_threads_m_increments_witness :
    (LockSys.mk false 1 [⟨Phase.idle, 0⟩]).counter = 1 * 1 :=
  (spinlock_n_threads_m_increments 1 1 (le_refl 1) (le_refl 1)
      ⟨false, 1, [⟨Phase.idle, 0⟩]⟩
      (Relation.ReflTransGen.head (SysStep.acquire [] [] 1 0 Nat.one_pos)
        (Relation.ReflTransGen.head (SysStep.read [] [] true 1 0)
          (Relation.ReflTransGen.head (SysStep.write [] [] true 1 0 0)
            (Relation.ReflTransGen.head (SysStep.release [] [] true 1 1)
              Relation.ReflTransGen.refl))))).2 (by decide)
